import Mathlib

/-!
Verification of the obligation-aggregation logic of
`src/app/[locale]/projects/components/Obligations/AllObligationsView.tsx`
(sw360-frontend). The definitions below are a shallow embedding of that
component's pure logic: the project-tree flattening (`extractAllProjects`),
the ancestry-path builder (`buildProjectPath`), the per-project obligation
fetch loop and the aggregation/filter loop, together with an explicit model
of the fetch-and-aggregate pipeline's effects (state write, error
notifications, console logs).
-/

namespace SW360

/-- Modelled from the spec: a release reference carried by an obligation
record (§3, "associated releases (sequence of name/version pairs)"); the
TypeScript type lives in `@/object-types`, outside the given sources. -/
structure ReleaseRef where
  name : String
  version : String
deriving DecidableEq

/-- Modelled from the spec: an ObligationRecord (§3). Field optionality
follows the view code's guarded accesses (`detail.status &&`,
`rootOb.status || ''`, `row.original.licenseIds && ...`, etc.); the
TypeScript `ObligationData` type lives in `@/object-types`, outside the
given sources. -/
structure ObligationData where
  status : Option String
  obligationType : Option String
  obligationLevel : Option String
  id : Option String
  licenseIds : Option (List String)
  releases : Option (List ReleaseRef)
  comment : Option String
deriving DecidableEq

/-- Modelled from the spec: one entry of a project's `linkedProjects` array;
only its `project` field (an optional reference to another project's
identifier) is used by the view code. -/
structure LinkedProjectRef where
  project : Option String
deriving DecidableEq

/-- Modelled from the spec: a Project (§3) as used by the view code:
`p.id` (optional), `p._links?.self.href` (here `selfHref`, `none` when
`_links` is absent), `p.name`, `p.version`, `p.linkedProjects`. The nested
`_embedded['sw360:linkedProjects']` substructure is represented separately
by `ProjTree`. -/
structure Project where
  id : Option String
  selfHref : Option String
  name : String
  version : Option String
  linkedProjects : Option (List LinkedProjectRef)
deriving DecidableEq

/-- The nested linked-project structure: each node is a project together
with its `_embedded['sw360:linkedProjects']` children (an absent `_embedded`
is represented by `[]`, which the traversal treats identically). -/
inductive ProjTree where
  | node (proj : Project) (children : List ProjTree)

/-- JavaScript `href.split('/').at(-1)`: `String.split` always returns a
non-empty array, so `.at(-1)` is its last element. -/
def lastSeg (s : String) : String :=
  (s.splitOn "/").getLastD ""

/-- JavaScript `p.id || p._links?.self.href.split('/').at(-1) || ''`
(lines 46, 248, 279 of the component): `||` takes the right operand when
the left is `undefined` or the empty string. -/
def resolveId (p : Project) : String :=
  match p.id with
  | some s => if s = "" then ((p.selfHref.map lastSeg).getD "") else s
  | none => (p.selfHref.map lastSeg).getD ""

/-- JavaScript `p.id || p._links?.self.href.split('/').at(-1)` (line 64):
same as `resolveId` but without the final `|| ''`, so the result can be
`undefined`, or the empty string when the self link ends in `/`. -/
def resolveIdOpt (p : Project) : Option String :=
  match p.id with
  | some s => if s = "" then p.selfHref.map lastSeg else some s
  | none => p.selfHref.map lastSeg

/-- First-match association-list lookup (JavaScript record property read;
the maps built below have unique keys, so first match is the match). -/
def alookup {α : Type} : List (String × α) → String → Option α
  | [], _ => none
  | (k, v) :: t, q => if k = q then some v else alookup t q

/-- JavaScript record assignment `m[k] = v`: an existing key keeps its
insertion position and gets the new value; a new key is appended. -/
def setEntry {α : Type} : List (String × α) → String → α → List (String × α)
  | [], k, v => [(k, v)]
  | (k', v') :: t, k, v => if k' = k then (k, v) :: t else (k', v') :: setEntry t k v

/-- The per-project obligation store `projectObligationsMap`: project id ↦
(obligation title ↦ obligation detail), both in insertion order. -/
def PMap : Type :=
  List (String × List (String × ObligationData))

/-- JavaScript `projectObligationsMap[pId] || ...` with the empty-record
default: the entry list for a project id, or `[]` when the id is absent. -/
def entriesOf (pmap : PMap) (k : String) : List (String × ObligationData) :=
  match alookup pmap k with
  | some e => e
  | none => []

/-- The keys of an association list, in order. -/
def keysOf {α : Type} (l : List (String × α)) : List String :=
  l.map Prod.fst

/-- JavaScript `new Map(allProjects.map((p) => [key p, p])).get(k)`: a later
entry with the same key overwrites an earlier one, so the lookup returns the
last project whose resolved id is `k`. -/
def projectMapGet (allProjects : List Project) (k : String) : Option Project :=
  (allProjects.filter (fun p => resolveId p = k)).getLast?

/-- One step of `buildProjectPath`'s `while (currentId)` loop (lines 53-68),
with explicit fuel because the source loop is not structurally terminating.
Faithful detail: the source sets `currentId = undefined` *before* the parent
scan, so the scan's closures compare each `lp.project` (and its trailing
segment) against `undefined`, not against the id just processed; `scanId`
below is that cleared value. -/
def buildPathLoop (allProjects : List Project) :
    Nat → Option String → List String → List String
  | 0, _, path => path
  | Nat.succ fuel, currentId, path =>
    match currentId with
    | none => path
    | some cid =>
      if cid = "" then path
      else
        match projectMapGet allProjects cid with
        | none => path
        | some project =>
          let path1 := project.name :: path
          let scanId : Option String := none
          let parent? := allProjects.find? (fun p =>
            match p.linkedProjects with
            | none => false
            | some lps => lps.any (fun lp =>
                lp.project == scanId || lp.project.map lastSeg == scanId))
          let next : Option String :=
            match parent? with
            | none => none
            | some p => resolveIdOpt p
          buildPathLoop allProjects fuel next path1

/-- The component's `buildProjectPath` (lines 43-71): walk from the target
up through discovered parents, prepending names, and join with " -> ". The
fuel bound `allProjects.length + 1` is an artifact of totalising the source
`while` loop, which can fail to terminate on inputs where some project
carries a linked-project entry with an undefined reference. -/
def buildProjectPath (projectId : String) (allProjects : List Project) : String :=
  String.intercalate " -> "
    (buildPathLoop allProjects (allProjects.length + 1) (some projectId) [])

/-- The component's `extractAllProjects` (lines 73-81): pre-order push of
every project, recursing into a node's nested linked projects (when
non-empty) before moving to the next sibling. The mutable accumulator array
is threaded explicitly. -/
def extractAllProjects : List ProjTree → List Project → List Project
  | [], acc => acc
  | ProjTree.node p cs :: rest, acc =>
    let acc1 := acc ++ [p]
    let acc2 := if cs.length > 0 then extractAllProjects cs acc1 else acc1
    extractAllProjects rest acc2
termination_by ts _ => sizeOf ts
decreasing_by
  all_goals simp
  all_goals omega

/-- The pre-order node sequence of a forest of project trees (specification
companion to `extractAllProjects`). -/
def preorderF : List ProjTree → List Project
  | [] => []
  | ProjTree.node p cs :: rest => (p :: preorderF cs) ++ preorderF rest
termination_by ts => sizeOf ts
decreasing_by
  all_goals simp
  all_goals omega

/-- The two statuses of `fulfilledStatuses` (lines 273-276). -/
def fulfilledStatuses : List String :=
  ["ACKNOWLEDGED_OR_FULFILLED", "FULFILLED_AND_PARENT_MUST_ALSO_FULFILL"]

/-- The guard `detail.status && fulfilledStatuses.includes(detail.status)`
(line 283): an absent or empty status is falsy and fails the guard. -/
def statusFulfilled : Option String → Bool
  | some s => (s != "") && fulfilledStatuses.contains s
  | none => false

/-- The parent-fulfillment check (lines 284-291): for status
`FULFILLED_AND_PARENT_MUST_ALSO_FULFILL`, look up the same title in the
*root* project's map (keyed by the component's `projectId` prop) and require
its status (with `|| ''` defaulting) to be one of the fulfilled values. -/
def parentFulfillmentOk (projectId : String) (pmap : PMap)
    (title : String) (detail : ObligationData) : Bool :=
  if detail.status = some "FULFILLED_AND_PARENT_MUST_ALSO_FULFILL" then
    match alookup (entriesOf pmap projectId) title with
    | none => false
    | some rootOb => fulfilledStatuses.contains (rootOb.status.getD "")
  else true

/-- The full inclusion decision for one (title, detail) entry. -/
def includeEntry (projectId : String) (pmap : PMap)
    (title : String) (detail : ObligationData) : Bool :=
  statusFulfilled detail.status && parentFulfillmentOk projectId pmap title detail

/-- The aggregated row type (the component's `AggregatedObligation`,
lines 23-29): an obligation record extended with project fields. -/
structure AggregatedObligation extends ObligationData where
  projectName : String
  projectVersion : Option String
  projectId : String
  obligationTitle : String
  projectPath : String
deriving DecidableEq

/-- The row pushed at lines 294-301: the spread of `detail` plus the owning
project's name, version, resolved id, the obligation title, and the ancestry
path. -/
def mkRow (flat : List Project) (p : Project) (title : String)
    (detail : ObligationData) : AggregatedObligation :=
  { toObligationData := detail
    projectName := p.name
    projectVersion := p.version
    projectId := resolveId p
    obligationTitle := title
    projectPath := buildProjectPath (resolveId p) flat }

/-- The rows one project contributes: its entry list filtered by
`includeEntry`, each hit turned into a row (specification companion to the
push loop). -/
def rowsForProject (pid : String) (flat : List Project) (pmap : PMap)
    (p : Project) : List AggregatedObligation :=
  (entriesOf pmap (resolveId p)).filterMap (fun e =>
    if includeEntry pid pmap e.1 e.2 then some (mkRow flat p e.1 e.2) else none)

/-- The filter-and-build loop of lines 278-305, with the mutable
`allAggregated` array threaded as an explicit accumulator: for each project
in flat-list order, iterate its obligation entries in insertion order and
push every entry that passes the inclusion decision. -/
def aggLoop (pid : String) (flat : List Project) (pmap : PMap) :
    List Project → List AggregatedObligation → List AggregatedObligation
  | [], acc => acc
  | p :: rest, acc =>
    let obs := entriesOf pmap (resolveId p)
    let acc1 := obs.foldl (fun a e =>
      if includeEntry pid pmap e.1 e.2 then a ++ [mkRow flat p e.1 e.2] else a) acc
    aggLoop pid flat pmap rest acc1

/-- The aggregation step (lines 272-305) run over the whole flat list. -/
def aggregateObligations (pid : String) (flat : List Project) (pmap : PMap) :
    List AggregatedObligation :=
  aggLoop pid flat pmap flat []

/-- The observable outcome of one awaited `ApiUtils.GET` (plus body parse):
a success-status response with parsed body, a non-success-status response
(whose parsed body, stringified, is what line 219/230 would throw), an
`AbortError` rejection, or any other rejection (network error, body parse
failure) carrying its message. -/
inductive FetchOutcome (α : Type) where
  | ok (body : α)
  | badStatus (errBody : String)
  | abortErr
  | otherErr (msg : String)

/-- The body of a `licenseObligations` response: the optional `obligations`
record, as a title-keyed entry list. -/
def ObligationBody : Type :=
  Option (List (String × ObligationData))

/-- The inner-record content the fetch loop (lines 255-269) leaves for one
project: on a success status, the response's obligation entries copied one
by one (record-assignment semantics); on a non-success status, an abort, or
any other exception, the record stays empty. -/
def outcomeEntries : FetchOutcome ObligationBody → List (String × ObligationData)
  | .ok (some obls) => obls.foldl (fun m e => setEntry m e.1 e.2) []
  | .ok none => []
  | .badStatus _ => []
  | .abortErr => []
  | .otherErr _ => []

/-- How many `console.error` diagnostics one project's fetch produces: one
for any rejection (the inner `catch` at line 267 swallows `AbortError` and
parse errors alike), none otherwise. -/
def outcomeLog : FetchOutcome ObligationBody → Nat
  | .ok _ => 0
  | .badStatus _ => 0
  | .abortErr => 1
  | .otherErr _ => 1

/-- The sequential per-project fetch loop (lines 247-270): skip projects
with an empty resolved id; otherwise set the project's record (first to
empty, then to whatever the fetch outcome yields) and accumulate console
diagnostics. `f` maps a project id to its fetch outcome. -/
def fetchObligations (f : String → FetchOutcome ObligationBody) :
    List Project → PMap → Nat → PMap × Nat
  | [], pmap, logs => (pmap, logs)
  | p :: rest, pmap, logs =>
    let pId := resolveId p
    if pId = "" then fetchObligations f rest pmap logs
    else
      fetchObligations f rest (setEntry pmap pId (outcomeEntries (f pId)))
        (logs + outcomeLog (f pId))

/-- One run's remote environment: the outcome of the root-project fetch, of
the linked-projects tree fetch (its body already shaped as a forest, an
absent `_embedded['sw360:projects']` being `[]`), and of each per-project
obligation fetch. -/
structure PipelineEnv where
  rootFetch : FetchOutcome Project
  treeFetch : FetchOutcome (List ProjTree)
  obligFetch : String → FetchOutcome ObligationBody

/-- The externally observable effects of one pipeline run: `rowsSet = some
rows` exactly when `setAggregatedObligations rows` was called, the messages
handed to `MessageService.error`, and the number of `console.error`
diagnostics. -/
structure PipelineResult where
  rowsSet : Option (List AggregatedObligation)
  errorMsgs : List String
  consoleLogs : Nat
deriving DecidableEq

/-- The effect of the async pipeline (lines 209-315) in environment `env`:
a thrown non-success root or tree response reaches the outer `catch` and
produces one error message; an `AbortError` there is silently discarded;
otherwise the flat list is built, obligations are fetched per project, and
the aggregation is written to state. -/
def runPipeline (env : PipelineEnv) (projectId : String) : PipelineResult :=
  match env.rootFetch with
  | .abortErr => ⟨none, [], 0⟩
  | .badStatus b => ⟨none, [b], 0⟩
  | .otherErr m => ⟨none, [m], 0⟩
  | .ok root =>
    match env.treeFetch with
    | .abortErr => ⟨none, [], 0⟩
    | .badStatus b => ⟨none, [b], 0⟩
    | .otherErr m => ⟨none, [m], 0⟩
    | .ok trees =>
      let flat := extractAllProjects trees [root]
      let fetched := fetchObligations env.obligFetch flat [] 0
      ⟨some (aggregateObligations projectId flat fetched.1), [], fetched.2⟩

/-- Sample root project: id "p", named "Root", linking to "c". -/
def sampleRoot : Project :=
  { id := some "p", selfHref := none, name := "Root", version := some "1.0",
    linkedProjects := some [⟨some "c"⟩] }

/-- Sample child project: id "c", named "Child". -/
def sampleChild : Project :=
  { id := some "c", selfHref := none, name := "Child", version := none,
    linkedProjects := none }

/-- Sample flat list: root then child, as the flattening produces. -/
def sampleFlat : List Project :=
  [sampleRoot, sampleChild]

/-- An obligation detail with status ACKNOWLEDGED_OR_FULFILLED. -/
def dAck : ObligationData :=
  { status := some "ACKNOWLEDGED_OR_FULFILLED", obligationType := none,
    obligationLevel := none, id := none, licenseIds := none, releases := none,
    comment := none }

/-- An obligation detail with status FULFILLED_AND_PARENT_MUST_ALSO_FULFILL. -/
def dFul : ObligationData :=
  { status := some "FULFILLED_AND_PARENT_MUST_ALSO_FULFILL", obligationType := none,
    obligationLevel := none, id := none, licenseIds := none, releases := none,
    comment := none }

/-- Sample fetched snapshot: the root fulfills "Attribution", the child
reports it as FULFILLED_AND_PARENT_MUST_ALSO_FULFILL. -/
def samplePmap : PMap :=
  [("p", [("Attribution", dAck)]), ("c", [("Attribution", dFul)])]

/-! Helper lemmas about the embedded operations. -/

theorem mkRow_projectId (flat : List Project) (p : Project) (t : String)
    (d : ObligationData) : (mkRow flat p t d).projectId = resolveId p :=
  rfl

theorem mkRow_title (flat : List Project) (p : Project) (t : String)
    (d : ObligationData) : (mkRow flat p t d).obligationTitle = t :=
  rfl

theorem mkRow_status (flat : List Project) (p : Project) (t : String)
    (d : ObligationData) : (mkRow flat p t d).status = d.status :=
  rfl

theorem alookup_eq_some_of_mem {α : Type} {l : List (String × α)} {k : String}
    {v : α} (hnd : (keysOf l).Nodup) (hmem : (k, v) ∈ l) :
    alookup l k = some v := by
  induction l with
  | nil => cases hmem
  | cons a t ih =>
    obtain ⟨k', v'⟩ := a
    simp only [keysOf, List.map_cons, List.nodup_cons] at hnd
    rcases List.mem_cons.mp hmem with h | h
    · obtain ⟨hk, hv⟩ := Prod.mk.injEq .. ▸ h
      simp [alookup, hk.symm, hv]
    · have hne : k' ≠ k := by
        intro he
        exact hnd.1 (he ▸ (List.mem_map.mpr ⟨(k, v), h, rfl⟩))
      simpa [alookup, hne] using ih hnd.2 h

theorem mem_eq_of_nodup_keys {α : Type} {l : List (String × α)} {k : String}
    {a b : α} (hnd : (keysOf l).Nodup) (ha : (k, a) ∈ l) (hb : (k, b) ∈ l) :
    a = b := by
  have h1 := alookup_eq_some_of_mem hnd ha
  have h2 := alookup_eq_some_of_mem hnd hb
  rw [h1] at h2
  exact Option.some.inj h2

theorem alookup_setEntry_self {α : Type} :
    ∀ (l : List (String × α)) (k : String) (v : α),
      alookup (setEntry l k v) k = some v
  | [], k, v => by simp [setEntry, alookup]
  | (k', v') :: t, k, v => by
    by_cases h : k' = k <;>
      simp [setEntry, h, alookup, alookup_setEntry_self t k v]

theorem alookup_setEntry_other {α : Type} {k q : String} (hq : q ≠ k) :
    ∀ (l : List (String × α)) (v : α),
      alookup (setEntry l k v) q = alookup l q
  | [], v => by
    have h : k ≠ q := fun h => hq h.symm
    simp [setEntry, alookup, h]
  | (k', v') :: t, v => by
    by_cases h : k' = k
    · subst h
      have h2 : k' ≠ q := fun h2 => hq h2.symm
      simp [setEntry, alookup, h2]
    · by_cases h2 : k' = q <;>
        simp [setEntry, alookup, h, h2, hq, alookup_setEntry_other hq t v]

theorem foldl_push_filterMap {α β : Type} (c : α → Bool) (f : α → β) :
    ∀ (l : List α) (acc : List β),
      l.foldl (fun a e => if c e then a ++ [f e] else a) acc
        = acc ++ l.filterMap (fun e => if c e then some (f e) else none)
  | [], acc => by simp
  | e :: t, acc => by
    by_cases h : c e <;>
      simp [h, foldl_push_filterMap c f t]

theorem aggLoop_eq (pid : String) (flat : List Project) (pmap : PMap) :
    ∀ (l : List Project) (acc : List AggregatedObligation),
      aggLoop pid flat pmap l acc
        = acc ++ l.flatMap (rowsForProject pid flat pmap)
  | [], acc => by simp [aggLoop]
  | p :: rest, acc => by
    simp only [aggLoop, List.flatMap_cons]
    rw [foldl_push_filterMap, aggLoop_eq pid flat pmap rest]
    simp [rowsForProject]

/-- The aggregation loop, characterised as a flat map: outer iteration in
flat-list order, inner iteration in each entry list's insertion order. -/
theorem aggregate_eq_flatMap (pid : String) (flat : List Project) (pmap : PMap) :
    aggregateObligations pid flat pmap
      = flat.flatMap (rowsForProject pid flat pmap) := by
  simpa using aggLoop_eq pid flat pmap flat []

theorem mem_rowsForProject_iff (pid : String) (flat : List Project) (pmap : PMap)
    (p : Project) (r : AggregatedObligation) :
    r ∈ rowsForProject pid flat pmap p ↔
      ∃ e, e ∈ entriesOf pmap (resolveId p) ∧
        includeEntry pid pmap e.1 e.2 = true ∧ r = mkRow flat p e.1 e.2 := by
  simp only [rowsForProject, List.mem_filterMap]
  constructor
  · rintro ⟨e, he, hif⟩
    by_cases h : includeEntry pid pmap e.1 e.2
    · refine ⟨e, he, h, ?_⟩
      simp only [h, if_true] at hif
      exact (Option.some.inj hif).symm
    · simp [h] at hif
  · rintro ⟨e, he, h, rfl⟩
    exact ⟨e, he, by simp [h]⟩

theorem mem_aggregate_iff (pid : String) (flat : List Project) (pmap : PMap)
    (r : AggregatedObligation) :
    r ∈ aggregateObligations pid flat pmap ↔
      ∃ p, p ∈ flat ∧ ∃ e, e ∈ entriesOf pmap (resolveId p) ∧
        includeEntry pid pmap e.1 e.2 = true ∧ r = mkRow flat p e.1 e.2 := by
  rw [aggregate_eq_flatMap]
  simp only [List.mem_flatMap]
  constructor
  · rintro ⟨p, hp, hr⟩
    exact ⟨p, hp, (mem_rowsForProject_iff pid flat pmap p r).mp hr⟩
  · rintro ⟨p, hp, he⟩
    exact ⟨p, hp, (mem_rowsForProject_iff pid flat pmap p r).mpr he⟩

/-- The traversal appends exactly the pre-order node sequence to its
accumulator. -/
theorem extract_eq : ∀ (ts : List ProjTree) (acc : List Project),
    extractAllProjects ts acc = acc ++ preorderF ts
  | [], acc => by simp [extractAllProjects, preorderF]
  | ProjTree.node p cs :: rest, acc => by
    have ihcs := extract_eq cs (acc ++ [p])
    have ihrest := extract_eq rest ((acc ++ [p]) ++ preorderF cs)
    simp only [extractAllProjects, preorderF]
    by_cases h : cs.length > 0
    · simp only [if_pos h, ihcs, ihrest]
      simp
    · have hcs : cs = [] := List.length_eq_zero.mp (by omega)
      subst hcs
      simp only [preorderF, List.append_nil] at ihrest
      simp only [if_neg h, ihrest, preorderF]
      simp
termination_by ts _ => sizeOf ts
decreasing_by
  all_goals simp
  all_goals omega

theorem countP_flatMap {α β : Type} (f : α → List β) (q : β → Bool) :
    ∀ l : List α,
      (l.flatMap f).countP q = (l.map (fun x => (f x).countP q)).sum
  | [] => by simp
  | x :: t => by
    simp [List.countP_append, countP_flatMap f q t]

theorem sum_map_eq_one_of_unique {α : Type} (g : α → Nat) :
    ∀ (l : List α) (p : α), l.Nodup → p ∈ l → g p = 1 →
      (∀ p' ∈ l, p' ≠ p → g p' = 0) → (l.map g).sum = 1
  | [], p, _, hp, _, _ => by cases hp
  | a :: t, p, hnd, hp, hg1, hg0 => by
    simp only [List.nodup_cons] at hnd
    rcases List.mem_cons.mp hp with h | h
    · subst h
      have hz : (t.map g).sum = 0 := by
        apply List.sum_eq_zero
        intro x hx
        obtain ⟨p', hp', rfl⟩ := List.mem_map.mp hx
        exact hg0 p' (List.mem_cons_of_mem _ hp')
          (fun he => hnd.1 (he ▸ hp'))
      simp [hg1, hz]
    · have ha : g a = 0 :=
        hg0 a (List.mem_cons_self a t) (fun he => hnd.1 (he ▸ h))
      have := sum_map_eq_one_of_unique g t p hnd.2 h hg1
        (fun p' hp' hne => hg0 p' (List.mem_cons_of_mem _ hp') hne)
      simp [ha, this]

/-- Two fetch environments whose outcomes have the same observable content
(entries copied, diagnostics emitted) drive the loop identically. -/
theorem fetchObligations_congr (f g : String → FetchOutcome ObligationBody)
    (h : ∀ q, outcomeEntries (f q) = outcomeEntries (g q) ∧
      outcomeLog (f q) = outcomeLog (g q)) :
    ∀ (l : List Project) (pmap : PMap) (n : Nat),
      fetchObligations f l pmap n = fetchObligations g l pmap n
  | [], pmap, n => rfl
  | p :: rest, pmap, n => by
    by_cases hp : resolveId p = "" <;>
      simp [fetchObligations, hp, (h (resolveId p)).1, (h (resolveId p)).2,
        fetchObligations_congr f g h rest]

/-- The obligation store built by the loop depends only on each outcome's
copied entries, not on the diagnostics counter or the outcomes' log
behaviour. -/
theorem fetchObligations_fst_congr (f g : String → FetchOutcome ObligationBody)
    (h : ∀ q, outcomeEntries (f q) = outcomeEntries (g q)) :
    ∀ (l : List Project) (pmap : PMap) (n n' : Nat),
      (fetchObligations f l pmap n).1 = (fetchObligations g l pmap n').1
  | [], pmap, n, n' => rfl
  | p :: rest, pmap, n, n' => by
    have ih := fun pm a b => fetchObligations_fst_congr f g h rest pm a b
    simp only [fetchObligations]
    by_cases hp : resolveId p = ""
    · rw [if_pos hp, if_pos hp]
      exact ih pmap n n'
    · rw [if_neg hp, if_neg hp, h (resolveId p)]
      exact ih _ _ _

/-- The loop never creates an entry for the empty project id. -/
theorem fetchObligations_lookup_empty (f : String → FetchOutcome ObligationBody) :
    ∀ (l : List Project) (pmap : PMap) (n : Nat),
      alookup (fetchObligations f l pmap n).1 "" = alookup pmap ""
  | [], pmap, n => rfl
  | p :: rest, pmap, n => by
    by_cases hp : resolveId p = ""
    · simp [fetchObligations, hp, fetchObligations_lookup_empty f rest]
    · have hne : "" ≠ resolveId p := fun h => hp h.symm
      simp [fetchObligations, hp, fetchObligations_lookup_empty f rest,
        alookup_setEntry_other hne]

/-- A project id written by no loop iteration keeps its initial entry. -/
theorem fetchObligations_lookup_of_not_mem (f : String → FetchOutcome ObligationBody)
    (k : String) :
    ∀ (l : List Project) (pmap : PMap) (n : Nat),
      (∀ p ∈ l, resolveId p ≠ k) →
      alookup (fetchObligations f l pmap n).1 k = alookup pmap k
  | [], pmap, n, _ => rfl
  | p :: rest, pmap, n, hk => by
    have hkrest : ∀ p' ∈ rest, resolveId p' ≠ k :=
      fun p' hp' => hk p' (List.mem_cons_of_mem _ hp')
    by_cases hp : resolveId p = ""
    · simp [fetchObligations, hp,
        fetchObligations_lookup_of_not_mem f k rest _ _ hkrest]
    · have hne : k ≠ resolveId p :=
        fun h => hk p (List.mem_cons_self p rest) h.symm
      simp [fetchObligations, hp,
        fetchObligations_lookup_of_not_mem f k rest _ _ hkrest,
        alookup_setEntry_other hne]

/-- After the loop, a non-empty project id that occurs in the list maps to
exactly the content of its (sole) fetch outcome. -/
theorem fetchObligations_lookup_of_mem (f : String → FetchOutcome ObligationBody)
    (k : String) (hk : k ≠ "") :
    ∀ (l : List Project) (pmap : PMap) (n : Nat),
      (∃ p ∈ l, resolveId p = k) →
      alookup (fetchObligations f l pmap n).1 k = some (outcomeEntries (f k))
  | [], _, _, hex => by
    obtain ⟨p, hp, _⟩ := hex
    cases hp
  | p :: rest, pmap, n, hex => by
    by_cases hrest : ∃ p' ∈ rest, resolveId p' = k
    · by_cases hp : resolveId p = "" <;>
        simp [fetchObligations, hp,
          fetchObligations_lookup_of_mem f k hk rest _ _ hrest]
    · have hkrest : ∀ p' ∈ rest, resolveId p' ≠ k := by
        intro p' hp' he
        exact hrest ⟨p', hp', he⟩
      have hphead : resolveId p = k := by
        obtain ⟨p', hp', he⟩ := hex
        rcases List.mem_cons.mp hp' with h | h
        · exact h ▸ he
        · exact absurd he (hkrest p' h)
      have hp : ¬ resolveId p = "" := hphead ▸ hk
      rw [fetchObligations]
      simp only [hp, if_neg, ite_false]
      rw [fetchObligations_lookup_of_not_mem f k rest _ _ hkrest, hphead,
        alookup_setEntry_self]

/-- Entry lists without the sought title contribute no matching row. -/
theorem countP_rows_zero_of_title_not_mem (pid : String) (flat : List Project)
    (pmap : PMap) (p : Project) (t : String)
    (l : List (String × ObligationData)) (hl : ∀ e ∈ l, e.1 ≠ t) :
    (l.filterMap (fun e =>
        if includeEntry pid pmap e.1 e.2 then some (mkRow flat p e.1 e.2)
        else none)).countP
      (fun r => r.projectId == resolveId p && r.obligationTitle == t) = 0 := by
  apply List.countP_eq_zero.mpr
  intro r hr
  obtain ⟨e, he, hif⟩ := List.mem_filterMap.mp hr
  by_cases h : includeEntry pid pmap e.1 e.2
  · simp only [h, if_true] at hif
    have hre := Option.some.inj hif
    subst hre
    simp [mkRow, hl e he]
  · simp [h] at hif

/-- With unique titles, an entry that passes the inclusion decision yields
exactly one matching row. -/
theorem countP_rows_one (pid : String) (flat : List Project) (pmap : PMap)
    (p : Project) (t : String) :
    ∀ l : List (String × ObligationData), (keysOf l).Nodup →
      (∃ d, (t, d) ∈ l ∧ includeEntry pid pmap t d = true) →
      (l.filterMap (fun e =>
          if includeEntry pid pmap e.1 e.2 then some (mkRow flat p e.1 e.2)
          else none)).countP
        (fun r => r.projectId == resolveId p && r.obligationTitle == t) = 1
  | [], _, hex => by
    obtain ⟨d, hd, _⟩ := hex
    cases hd
  | a :: rest, hnd, hex => by
    obtain ⟨k', v'⟩ := a
    simp only [keysOf, List.map_cons, List.nodup_cons] at hnd
    obtain ⟨d, hd, hinc⟩ := hex
    rcases List.mem_cons.mp hd with h | h
    · obtain ⟨hk, hv⟩ := Prod.mk.injEq .. ▸ h
      subst hk
      subst hv
      have hz := countP_rows_zero_of_title_not_mem pid flat pmap p t rest
        (by
          intro e he het
          exact hnd.1 (het ▸ List.mem_map.mpr ⟨e, he, rfl⟩))
      have hstep : List.filterMap (fun e : String × ObligationData =>
            if includeEntry pid pmap e.1 e.2 then some (mkRow flat p e.1 e.2)
            else none) ((t, d) :: rest)
          = mkRow flat p t d :: List.filterMap (fun e : String × ObligationData =>
            if includeEntry pid pmap e.1 e.2 then some (mkRow flat p e.1 e.2)
            else none) rest := by
        rw [List.filterMap_cons]
        simp [hinc]
      rw [hstep, List.countP_cons, hz]
      simp [mkRow]
    · have hkt : k' ≠ t := by
        intro he
        exact hnd.1 (he ▸ List.mem_map.mpr ⟨(t, d), h, rfl⟩)
      have hrest := countP_rows_one pid flat pmap p t rest hnd.2 ⟨d, h, hinc⟩
      by_cases hik : includeEntry pid pmap k' v'
      · have hstep : List.filterMap (fun e : String × ObligationData =>
              if includeEntry pid pmap e.1 e.2 then some (mkRow flat p e.1 e.2)
              else none) ((k', v') :: rest)
            = mkRow flat p k' v' :: List.filterMap (fun e : String × ObligationData =>
              if includeEntry pid pmap e.1 e.2 then some (mkRow flat p e.1 e.2)
              else none) rest := by
          rw [List.filterMap_cons]
          simp [hik]
        rw [hstep, List.countP_cons, hrest]
        simp [mkRow, hkt]
      · have hstep : List.filterMap (fun e : String × ObligationData =>
              if includeEntry pid pmap e.1 e.2 then some (mkRow flat p e.1 e.2)
              else none) ((k', v') :: rest)
            = List.filterMap (fun e : String × ObligationData =>
              if includeEntry pid pmap e.1 e.2 then some (mkRow flat p e.1 e.2)
              else none) rest := by
          rw [List.filterMap_cons]
          simp [hik]
        rw [hstep]
        exact hrest

/-- A project whose resolved id differs contributes no matching row. -/
theorem countP_rowsForProject_zero_of_ne (pid : String) (flat : List Project)
    (pmap : PMap) (p p' : Project) (t : String)
    (hne : resolveId p' ≠ resolveId p) :
    (rowsForProject pid flat pmap p').countP
      (fun r => r.projectId == resolveId p && r.obligationTitle == t) = 0 := by
  apply List.countP_eq_zero.mpr
  intro r hr
  obtain ⟨e, _, _, rfl⟩ := (mem_rowsForProject_iff pid flat pmap p' r).mp hr
  simp [mkRow, hne]

/-! Claim theorems. -/

/-- C1: every row in the aggregation output carries a status equal to one of
the two fulfilled values ACKNOWLEDGED_OR_FULFILLED or
FULFILLED_AND_PARENT_MUST_ALSO_FULFILL; no row with any other status, or
with a missing status, ever appears. -/
theorem c1_rows_only_fulfilled (pid : String) (flat : List Project)
    (pmap : PMap) (r : AggregatedObligation)
    (hr : r ∈ aggregateObligations pid flat pmap) :
    ∃ s, r.status = some s ∧
      (s = "ACKNOWLEDGED_OR_FULFILLED" ∨
        s = "FULFILLED_AND_PARENT_MUST_ALSO_FULFILL") := by
  obtain ⟨p, hp, e, he, hinc, rfl⟩ := (mem_aggregate_iff pid flat pmap r).mp hr
  have hs : statusFulfilled e.2.status = true := by
    have h := hinc
    simp only [includeEntry, Bool.and_eq_true] at h
    exact h.1
  cases hst : e.2.status with
  | none => rw [hst] at hs; simp [statusFulfilled] at hs
  | some s =>
    rw [hst] at hs
    simp only [statusFulfilled, Bool.and_eq_true] at hs
    refine ⟨s, by rw [mkRow_status, hst], ?_⟩
    simpa [fulfilledStatuses] using hs.2

/-- C2: a row whose status is FULFILLED_AND_PARENT_MUST_ALSO_FULFILL is
included exactly when the root project's obligation map has a same-title
entry whose (defaulted) status is one of the two fulfilled values; otherwise
the row is excluded even though the owning project reports fulfillment. -/
theorem c2_parent_fulfillment_gate (pid : String) (flat : List Project)
    (pmap : PMap) (p : Project) (title : String) (detail : ObligationData)
    (hp : p ∈ flat)
    (hnd : (flat.map resolveId).Nodup)
    (hkeys : (keysOf (entriesOf pmap (resolveId p))).Nodup)
    (he : (title, detail) ∈ entriesOf pmap (resolveId p))
    (hst : detail.status = some "FULFILLED_AND_PARENT_MUST_ALSO_FULFILL") :
    (∃ r ∈ aggregateObligations pid flat pmap,
        r.projectId = resolveId p ∧ r.obligationTitle = title) ↔
      (∃ rootOb, alookup (entriesOf pmap pid) title = some rootOb ∧
        fulfilledStatuses.contains (rootOb.status.getD "") = true) := by
  constructor
  · rintro ⟨r, hr, hrid, hrt⟩
    obtain ⟨p', hp', ⟨t0, d0⟩, he', hinc, rfl⟩ :=
      (mem_aggregate_iff pid flat pmap r).mp hr
    rw [mkRow_projectId] at hrid
    have hpp : p' = p := List.inj_on_of_nodup_map hnd hp' hp hrid
    subst hpp
    rw [mkRow_title] at hrt
    subst hrt
    have hdd : d0 = detail := mem_eq_of_nodup_keys hkeys he' he
    subst hdd
    have h := hinc
    simp only [includeEntry, Bool.and_eq_true] at h
    have hpar := h.2
    rw [parentFulfillmentOk, if_pos hst] at hpar
    cases hlook : alookup (entriesOf pmap pid) t0 with
    | none => rw [hlook] at hpar; cases hpar
    | some rootOb =>
      rw [hlook] at hpar
      exact ⟨rootOb, rfl, hpar⟩
  · rintro ⟨rootOb, hlook, hful⟩
    have hinc : includeEntry pid pmap title detail = true := by
      rw [includeEntry, Bool.and_eq_true]
      constructor
      · rw [hst]
        decide
      · rw [parentFulfillmentOk, if_pos hst, hlook]
        exact hful
    refine ⟨mkRow flat p title detail, ?_, mkRow_projectId .., mkRow_title ..⟩
    exact (mem_aggregate_iff pid flat pmap _).mpr
      ⟨p, hp, (title, detail), he, hinc, rfl⟩

/-- C8: for a fixed root id, flat list and fetched snapshot, the aggregation
is deterministic (two runs give the same ordered row list), and the order is
the outer flat-list iteration with the inner insertion-order iteration of
each project's obligation entries. -/
theorem c8_deterministic_aggregation (pid : String) (flat : List Project)
    (pmap : PMap) :
    aggregateObligations pid flat pmap = aggregateObligations pid flat pmap ∧
      aggregateObligations pid flat pmap
        = flat.flatMap (rowsForProject pid flat pmap) :=
  ⟨rfl, aggregate_eq_flatMap pid flat pmap⟩

/-- C9: when resolved project ids are distinct and each obligation map has
distinct titles, the output has exactly one row per (project,
obligation-title) pair that passes the inclusion filter, and every output
row arises from such a passing pair. -/
theorem c9_exactly_one_row_per_pair (pid : String) (flat : List Project)
    (pmap : PMap)
    (hnd : (flat.map resolveId).Nodup)
    (hkeys : ∀ p ∈ flat, (keysOf (entriesOf pmap (resolveId p))).Nodup) :
    (∀ p ∈ flat, ∀ e ∈ entriesOf pmap (resolveId p),
        includeEntry pid pmap e.1 e.2 = true →
        (aggregateObligations pid flat pmap).countP
          (fun r => r.projectId == resolveId p && r.obligationTitle == e.1)
          = 1) ∧
      (∀ r ∈ aggregateObligations pid flat pmap,
        ∃ p ∈ flat, ∃ e ∈ entriesOf pmap (resolveId p),
          includeEntry pid pmap e.1 e.2 = true ∧ r = mkRow flat p e.1 e.2) := by
  constructor
  · intro p hp e he hinc
    rw [aggregate_eq_flatMap, countP_flatMap]
    apply sum_map_eq_one_of_unique _ flat p (List.Nodup.of_map _ hnd) hp
    · exact countP_rows_one pid flat pmap p e.1
        (entriesOf pmap (resolveId p)) (hkeys p hp) ⟨e.2, he, hinc⟩
    · intro p' hp' hne
      apply countP_rowsForProject_zero_of_ne
      intro hid
      exact hne (List.inj_on_of_nodup_map hnd hp' hp hid)
  · intro r hr
    obtain ⟨p, hp, e, he, hinc, hre⟩ :=
      (mem_aggregate_iff pid flat pmap r).mp hr
    exact ⟨p, hp, e, he, hinc, hre⟩

/-- C10: an obligation of the root project itself with status
FULFILLED_AND_PARENT_MUST_ALSO_FULFILL always passes the parent-fulfillment
check (its own map entry satisfies it), and its row is included — provided
the root project's resolved identifier equals the aggregation's root
project id. -/
theorem c10_root_own_obligations_pass (pid : String) (flat : List Project)
    (pmap : PMap) (rootP : Project) (title : String) (detail : ObligationData)
    (hmem : rootP ∈ flat) (hid : resolveId rootP = pid)
    (hkeys : (keysOf (entriesOf pmap pid)).Nodup)
    (he : (title, detail) ∈ entriesOf pmap pid)
    (hst : detail.status = some "FULFILLED_AND_PARENT_MUST_ALSO_FULFILL") :
    parentFulfillmentOk pid pmap title detail = true ∧
      mkRow flat rootP title detail ∈ aggregateObligations pid flat pmap := by
  have hlook : alookup (entriesOf pmap pid) title = some detail :=
    alookup_eq_some_of_mem hkeys he
  have hpar : parentFulfillmentOk pid pmap title detail = true := by
    rw [parentFulfillmentOk, if_pos hst, hlook]
    show fulfilledStatuses.contains (detail.status.getD "") = true
    rw [hst]
    decide
  refine ⟨hpar, ?_⟩
  have hinc : includeEntry pid pmap title detail = true := by
    rw [includeEntry, Bool.and_eq_true]
    exact ⟨by rw [hst]; decide, hpar⟩
  exact (mem_aggregate_iff pid flat pmap _).mpr
    ⟨rootP, hmem, (title, detail), by rw [hid]; exact he, hinc, rfl⟩

/-- C3 (counterexample evaluation): on a strictly hierarchical two-project
input — `sampleRoot` (id "p", name "Root") links child "c"; `sampleChild`
(id "c", name "Child") — the path for the depth-1 target "c" should have two
segments starting with the root's name ("Root -> Child"), but
`buildProjectPath` returns only the target's own name: the parent scan
compares each link target against the already-cleared current id, so no
ancestor is ever found. -/
theorem c3_path_loses_ancestors :
    buildProjectPath "c" sampleFlat = "Child" ∧
      buildProjectPath "c" sampleFlat ≠ "Root -> Child" := by
  constructor
  · rfl
  · decide

/-- C4: flattening a root project with a forest of nested linked projects
yields the root first, followed by the pre-order walk of the forest; when
the projects are pairwise distinct, the root and every node each occur
exactly once. -/
theorem c4_flatten_preorder (root : Project) (ts : List ProjTree)
    (hnd : (root :: preorderF ts).Nodup) :
    extractAllProjects ts [root] = root :: preorderF ts ∧
      (extractAllProjects ts [root]).head? = some root ∧
      (extractAllProjects ts [root]).count root = 1 ∧
      ∀ x ∈ preorderF ts, (extractAllProjects ts [root]).count x = 1 := by
  have heq : extractAllProjects ts [root] = root :: preorderF ts := by
    rw [extract_eq]
    rfl
  refine ⟨heq, by rw [heq]; rfl, ?_, ?_⟩
  · rw [heq]
    exact List.count_eq_one_of_mem hnd (List.mem_cons_self root _)
  · intro x hx
    rw [heq]
    exact List.count_eq_one_of_mem hnd (List.mem_cons_of_mem _ hx)

/-- C5 (failing-input evaluation): cancellation observed during the
per-project obligation fetch (every obligation request rejects with
AbortError) does NOT leave the row state untouched: the inner catch swallows
the AbortError, the loop finishes, and the aggregated rows are written
(`rowsSet = some []`), with one console diagnostic and no error message. By
contrast, cancellation during the root fetch behaves as the claim says. -/
theorem c5_cancellation_still_mutates :
    runPipeline ⟨.ok sampleRoot, .ok [], fun _ => .abortErr⟩ "p"
        = ⟨some [], [], 1⟩ ∧
      runPipeline ⟨.abortErr, .ok [], fun _ => .abortErr⟩ "p"
        = ⟨none, [], 0⟩ := by
  have h1 : extractAllProjects ([] : List ProjTree) [sampleRoot]
      = [sampleRoot] := by
    rw [extract_eq]
    simp [preorderF]
  constructor
  · show (⟨some (aggregateObligations "p"
        (extractAllProjects [] [sampleRoot])
        (fetchObligations (fun _ => .abortErr)
          (extractAllProjects [] [sampleRoot]) [] 0).1), [],
      (fetchObligations (fun _ => .abortErr)
        (extractAllProjects [] [sampleRoot]) [] 0).2⟩ : PipelineResult) = _
    rw [h1]
    rfl
  · rfl

/-- C6: a project whose obligation fetch returns a non-success status, or
whose response fails to parse (any other rejection), contributes zero rows
and raises no user-visible error, and the fetches and aggregation of every
other project proceed unaffected: the written rows and the error messages
equal those of the run where that project reports no obligations. -/
theorem c6_project_fetch_failure_is_local (env : PipelineEnv) (pid : String)
    (root : Project) (trees : List ProjTree) (p : Project) (m : String)
    (hroot : env.rootFetch = .ok root) (htree : env.treeFetch = .ok trees)
    (hp : p ∈ extractAllProjects trees [root])
    (hnd : ((extractAllProjects trees [root]).map resolveId).Nodup)
    (hbad : env.obligFetch (resolveId p) = .badStatus m ∨
      env.obligFetch (resolveId p) = .otherErr m) :
    (runPipeline env pid).errorMsgs = [] ∧
      (∀ rows, (runPipeline env pid).rowsSet = some rows →
        ∀ r ∈ rows, r.projectId ≠ resolveId p) ∧
      (runPipeline env pid).rowsSet =
        (runPipeline ⟨env.rootFetch, env.treeFetch,
          fun q => if q = resolveId p then .ok none
            else env.obligFetch q⟩ pid).rowsSet ∧
      (runPipeline env pid).errorMsgs =
        (runPipeline ⟨env.rootFetch, env.treeFetch,
          fun q => if q = resolveId p then .ok none
            else env.obligFetch q⟩ pid).errorMsgs := by
  obtain ⟨rf, tf, og⟩ := env
  simp only at hroot htree hbad
  subst hroot
  subst htree
  have hent : outcomeEntries (og (resolveId p)) = [] := by
    rcases hbad with h | h <;> rw [h] <;> rfl
  refine ⟨rfl, ?_, ?_, rfl⟩
  · intro rows hrows r hr hcontra
    have hrows' : rows = aggregateObligations pid (extractAllProjects trees [root])
        (fetchObligations og (extractAllProjects trees [root]) [] 0).1 :=
      (Option.some.inj hrows).symm
    subst hrows'
    obtain ⟨p', hp', e, he, _, hre⟩ :=
      (mem_aggregate_iff _ _ _ r).mp hr
    have hrid : resolveId p' = resolveId p := by
      rw [← hcontra, hre, mkRow_projectId]
    have hpp : p' = p := List.inj_on_of_nodup_map hnd hp' hp hrid
    rw [hpp] at he
    by_cases hempty : resolveId p = ""
    · rw [hempty] at he
      rw [entriesOf, fetchObligations_lookup_empty] at he
      cases he
    · rw [entriesOf, fetchObligations_lookup_of_mem og (resolveId p) hempty
        (extractAllProjects trees [root]) [] 0 ⟨p, hp, rfl⟩, hent] at he
      cases he
  · have hfst := fetchObligations_fst_congr og
      (fun q => if q = resolveId p then .ok none else og q)
      (by
        intro q
        by_cases hq : q = resolveId p
        · subst hq
          simp only [hent]
          simp [outcomeEntries]
        · simp [hq])
      (extractAllProjects trees [root]) [] 0 0
    simp only [runPipeline]
    rw [hfst]

/-- C7: a non-success status on the root-project fetch, or on the
linked-projects tree fetch, aborts the pipeline: exactly one error message
(the thrown body) is emitted, the row state is not written, and the
per-project obligation fetches are never consulted. -/
theorem c7_fatal_root_or_tree_failure (env : PipelineEnv) (pid : String)
    (b : String)
    (h : env.rootFetch = .badStatus b ∨
      (env.treeFetch = .badStatus b ∧ ∃ root, env.rootFetch = .ok root)) :
    runPipeline env pid = ⟨none, [b], 0⟩ ∧
      ∀ f : String → FetchOutcome ObligationBody,
        runPipeline ⟨env.rootFetch, env.treeFetch, f⟩ pid = ⟨none, [b], 0⟩ := by
  obtain ⟨rf, tf, og⟩ := env
  rcases h with h | ⟨ht, root, hr⟩
  · simp only at h
    subst h
    exact ⟨rfl, fun _ => rfl⟩
  · simp only at ht hr
    subst ht
    subst hr
    exact ⟨rfl, fun _ => rfl⟩

/-- Environment for exercising a local per-project fetch failure: the
child's obligation response fails to parse (the fetch rejects). -/
def envChildBad : PipelineEnv :=
  ⟨.ok sampleRoot, .ok [ProjTree.node sampleChild []],
    fun q => if q = "c" then .otherErr "parse failure"
      else .ok (some [("Attribution", dAck)])⟩

/-- Environment for exercising a fatal root-fetch failure. -/
def envRootBad : PipelineEnv :=
  ⟨.badStatus "boom", .ok [], fun _ => .ok none⟩

/-- Snapshot in which the root itself reports
FULFILLED_AND_PARENT_MUST_ALSO_FULFILL for "Attribution". -/
def pmapRootFul : PMap :=
  [("p", [("Attribution", dFul)])]

/-- Witness for C1 at a concrete snapshot. -/
theorem c1_witness :
    ∃ s, (mkRow sampleFlat sampleRoot "Attribution" dAck).status = some s ∧
      (s = "ACKNOWLEDGED_OR_FULFILLED" ∨
        s = "FULFILLED_AND_PARENT_MUST_ALSO_FULFILL") :=
  c1_rows_only_fulfilled "p" sampleFlat samplePmap
    (mkRow sampleFlat sampleRoot "Attribution" dAck) (by decide)

/-- Witness for C2 at a concrete snapshot. -/
theorem c2_witness :
    (∃ r ∈ aggregateObligations "p" sampleFlat samplePmap,
        r.projectId = resolveId sampleChild ∧ r.obligationTitle = "Attribution") ↔
      (∃ rootOb, alookup (entriesOf samplePmap "p") "Attribution" = some rootOb ∧
        fulfilledStatuses.contains (rootOb.status.getD "") = true) :=
  c2_parent_fulfillment_gate "p" sampleFlat samplePmap sampleChild
    "Attribution" dFul (by decide) (by decide) (by decide) (by decide) rfl

/-- Witness for C4 at a concrete one-child tree. -/
theorem c4_witness :
    extractAllProjects [ProjTree.node sampleChild []] [sampleRoot]
        = sampleRoot :: preorderF [ProjTree.node sampleChild []] ∧
      (extractAllProjects [ProjTree.node sampleChild []] [sampleRoot]).head?
        = some sampleRoot ∧
      (extractAllProjects [ProjTree.node sampleChild []] [sampleRoot]).count
        sampleRoot = 1 ∧
      ∀ x ∈ preorderF [ProjTree.node sampleChild []],
        (extractAllProjects [ProjTree.node sampleChild []] [sampleRoot]).count
          x = 1 :=
  c4_flatten_preorder sampleRoot [ProjTree.node sampleChild []]
    (by
      simp only [preorderF]
      decide)

/-- Witness for C6 at a concrete environment whose child response fails to
parse. -/
theorem c6_witness :
    (runPipeline envChildBad "p").errorMsgs = [] ∧
      (∀ rows, (runPipeline envChildBad "p").rowsSet = some rows →
        ∀ r ∈ rows, r.projectId ≠ resolveId sampleChild) ∧
      (runPipeline envChildBad "p").rowsSet =
        (runPipeline ⟨envChildBad.rootFetch, envChildBad.treeFetch,
          fun q => if q = resolveId sampleChild then .ok none
            else envChildBad.obligFetch q⟩ "p").rowsSet ∧
      (runPipeline envChildBad "p").errorMsgs =
        (runPipeline ⟨envChildBad.rootFetch, envChildBad.treeFetch,
          fun q => if q = resolveId sampleChild then .ok none
            else envChildBad.obligFetch q⟩ "p").errorMsgs :=
  c6_project_fetch_failure_is_local envChildBad "p" sampleRoot
    [ProjTree.node sampleChild []] sampleChild "parse failure" rfl rfl
    (by
      rw [extract_eq]
      simp only [preorderF]
      decide)
    (by
      rw [extract_eq]
      simp only [preorderF]
      decide)
    (Or.inr rfl)

/-- Witness for C7 at a concrete environment. -/
theorem c7_witness :
    runPipeline envRootBad "p" = ⟨none, ["boom"], 0⟩ ∧
      ∀ f : String → FetchOutcome ObligationBody,
        runPipeline ⟨envRootBad.rootFetch, envRootBad.treeFetch, f⟩ "p"
          = ⟨none, ["boom"], 0⟩ :=
  c7_fatal_root_or_tree_failure envRootBad "p" "boom" (Or.inl rfl)

/-- Witness for C9 at a concrete snapshot. -/
theorem c9_witness :
    (∀ p ∈ sampleFlat, ∀ e ∈ entriesOf samplePmap (resolveId p),
        includeEntry "p" samplePmap e.1 e.2 = true →
        (aggregateObligations "p" sampleFlat samplePmap).countP
          (fun r => r.projectId == resolveId p && r.obligationTitle == e.1)
          = 1) ∧
      (∀ r ∈ aggregateObligations "p" sampleFlat samplePmap,
        ∃ p ∈ sampleFlat, ∃ e ∈ entriesOf samplePmap (resolveId p),
          includeEntry "p" samplePmap e.1 e.2 = true ∧
            r = mkRow sampleFlat p e.1 e.2) :=
  c9_exactly_one_row_per_pair "p" sampleFlat samplePmap (by decide) (by decide)

/-- Witness for C10 at a concrete snapshot. -/
theorem c10_witness :
    parentFulfillmentOk "p" pmapRootFul "Attribution" dFul = true ∧
      mkRow sampleFlat sampleRoot "Attribution" dFul
        ∈ aggregateObligations "p" sampleFlat pmapRootFul :=
  c10_root_own_obligations_pass "p" sampleFlat pmapRootFul sampleRoot
    "Attribution" dFul (by decide) (by decide) (by decide) (by decide) rfl

end SW360
